import Mathlib

/-!
Verification of the PyBIND ISC-configuration serializer (`iscconf.py`) and the
BIND wrapper layer (`pybind/bindconf.py`, `bindconf.py`) against its
natural-language specification.

Shallow embedding conventions:

* Python strings are `String`; tuples/lists of tokens are `List String`.
* The file handle `fh` is embedded as a writer: each `write` method returns
  the text it appends to the stream.
* The class hierarchy `_Element` / `Statement` / `Clause` becomes the
  inductive `Element`: `Statement.write` and `Clause.write` are the two
  branches of `Element.write` (dynamic dispatch becomes pattern matching).
* `Clause.additional` is stored exactly as passed in Python (any object,
  including `None`); we embed it as `Option (List String)`.  `Clause.write`
  iterates it (`for item in self.additional:`), so `none` raises a
  `TypeError`; fallible rendering is `Except String`.
* Python truthiness on an optional value (`if self.comment:`) is `none` or
  the empty value being falsy; it is spelled out at each use.
-/

namespace PyBind

/-- Embeds `iscconf.write_indent`: `indent` tab characters. -/
def write_indent (indent : Nat) : String :=
  String.mk (List.replicate indent '\t')

/-- Splits a character list on newline characters, mirroring Python
`str.split('\n')`: `splitNl "a\nb" = ["a","b"]`, `splitNl "" = [""]`,
`splitNl "a\n" = ["a",""]`. -/
def splitNl : List Char → List (List Char)
  | [] => [[]]
  | c :: cs =>
    if c = '\n' then [] :: splitNl cs
    else
      match splitNl cs with
      | [] => [[c]]
      | l :: ls => (c :: l) :: ls

/-- Embeds one pass of the comment loop of `_Element.write`: for each line of
the split comment, `indent` tabs, then `"# "`, then the line, then a
newline. -/
def commentLinesWrite (lines : List (List Char)) (indent : Nat) : String :=
  match lines with
  | [] => ""
  | l :: ls =>
    write_indent indent ++ "# " ++ String.mk l ++ "\n" ++ commentLinesWrite ls indent

/-- Embeds the comment handling of `_Element.write`: when the comment is
present and non-empty (Python truthiness of `if self.comment:`), the comment
is split on newlines and each line written indented. -/
def commentWrite (comment : Option String) (indent : Nat) : String :=
  match comment with
  | none => ""
  | some c =>
    if c = "" then ""
    else commentLinesWrite (splitNl c.data) indent

/-- Embeds the tail of `_Element.write`: after the comment, `indent` tabs and
the label (no newline yet). -/
def elementWrite (label : String) (comment : Option String) (indent : Nat) : String :=
  commentWrite comment indent ++ write_indent indent ++ label

/-- Embeds the loop `for item in items: fh.write(' %s' % item)` used for a
Statement value tuple and a Clause additional tuple. -/
def valueWrite (items : List String) : String :=
  match items with
  | [] => ""
  | item :: rest => " " ++ item ++ valueWrite rest

/-- Embeds the stanza loop of `Statement.write`: each stanza item on its own
line at `indent + 1` tabs, terminated by a semicolon and newline. -/
def stanzaWrite (stanza : List String) (indent : Nat) : String :=
  match stanza with
  | [] => ""
  | item :: rest => write_indent (indent + 1) ++ item ++ ";\n" ++ stanzaWrite rest indent

/-- The element tree of `iscconf.py`.  `stmt` carries the fields of
`Statement` (`label`, `value`, `stanza`, `comment`), `clause` those of
`Clause` (`label`, `additional`, `elements`, `comment`).  `additional` is
`Option` because Python stores whatever was passed, including `None`
(`pybind.bindconf.Masters.__init__` passes `None` when no port is given). -/
inductive Element where
  | stmt (label : String) (value : List String) (stanza : List String)
      (comment : Option String)
  | clause (label : String) (additional : Option (List String))
      (elements : List Element) (comment : Option String)

/-- Label accessor shared by both element kinds (`_Element.label`). -/
def Element.label : Element → String
  | .stmt l _ _ _ => l
  | .clause l _ _ _ => l

/-- Error raised by `for item in self.additional:` when `additional` is
`None`. -/
def noneIterErr : String := "TypeError: NoneType object is not iterable"

mutual

/-- Embeds `Statement.write` and `Clause.write` from `iscconf.py`.  The
statement branch: comment, indent, label (`_Element.write`), then each value
token preceded by a space, then either a braced stanza (when the stanza list
is non-empty, Python truthiness of `self.stanza`) or `";\n"`.  The clause
branch: comment, indent, label, then iterates `self.additional` (a
`TypeError` when it is `None`), writes an opening brace line, each child at
`indent + 1`, then closing at `indent`. -/
def Element.write : Element → Nat → Except String String
  | .stmt label value stanza comment, indent =>
    .ok (elementWrite label comment indent ++ valueWrite value ++
      (if stanza = [] then ";\n"
       else " \x7b\n" ++ stanzaWrite stanza indent ++ write_indent indent ++ "\x7d;\n"))
  | .clause label additional elements comment, indent =>
    match additional with
    | none => .error noneIterErr
    | some addl => do
      let body ← Element.writeList elements (indent + 1)
      .ok (elementWrite label comment indent ++ valueWrite addl ++ " \x7b\n" ++
        body ++ write_indent indent ++ "\x7d;\n")

/-- Embeds the child-rendering loop of `Clause.write` (and of
`ISCConf.write_file`): each element written in order to the same stream. -/
def Element.writeList : List Element → Nat → Except String String
  | [], _ => .ok ""
  | e :: es, indent => do
    let s ← Element.write e indent
    let rest ← Element.writeList es indent
    .ok (s ++ rest)

end

/-- Embeds `ISCConf.write_file`: the contents written to the file are the
top-level elements rendered in order at indent 0 (the file is opened with
mode `w`, i.e. truncated). -/
def write_file (elements : List Element) : Except String String :=
  Element.writeList elements 0

mutual

/-- Embeds `Statement.write` / `Clause.write` with the object state threaded
explicitly: the result pairs the text written with the `self` object as it
stands after the call.  The source methods only read attributes (`self.label`,
`self.value`, `self.stanza`, `self.additional`, `self.comment`,
`self.elements`) and never assign them, so each branch returns an element
rebuilt from the fields it read, with children replaced by their own
post-call states. -/
def Element.writeM : Element → Nat → Except String (String × Element)
  | .stmt label value stanza comment, indent =>
    .ok (elementWrite label comment indent ++ valueWrite value ++
      (if stanza = [] then ";\n"
       else " \x7b\n" ++ stanzaWrite stanza indent ++ write_indent indent ++ "\x7d;\n"),
      .stmt label value stanza comment)
  | .clause label additional elements comment, indent =>
    match additional with
    | none => .error noneIterErr
    | some addl => do
      let (body, elements2) ← Element.writeListM elements (indent + 1)
      .ok (elementWrite label comment indent ++ valueWrite addl ++ " \x7b\n" ++
        body ++ write_indent indent ++ "\x7d;\n",
        .clause label (some addl) elements2 comment)

/-- State-threaded version of the child-rendering loop of `Clause.write`. -/
def Element.writeListM : List Element → Nat → Except String (String × List Element)
  | [], _ => .ok ("", [])
  | e :: es, indent => do
    let (s, e2) ← Element.writeM e indent
    let (rest, es2) ← Element.writeListM es indent
    .ok (s ++ rest, e2 :: es2)

end

/-- A Python value passed to `add_element`: either an `_Element` (a Statement
or Clause) or some other object such as a string or an integer. -/
inductive PyObject where
  | elem (e : Element)
  | pystr (s : String)
  | pyint (n : Int)

/-- Embeds `_Conf.add_element`: raises `TypeError` when the argument is not
an `_Element` instance, otherwise appends it to `self.elements`.  The result
pairs the raised error (if any) with the `elements` list after the call; on
the error path the `raise` happens before the append, so the list is
returned unchanged. -/
def add_element (elements : List Element) (arg : PyObject) :
    Option String × List Element :=
  match arg with
  | .elem e => (none, elements ++ [e])
  | .pystr _ => (some "TypeError: element is not an _Element", elements)
  | .pyint _ => (some "TypeError: element is not an _Element", elements)

/-- Embeds `_Conf.get_elements`: the list comprehension
`[e for e in self.elements if e.label == label]`. -/
def get_elements (elements : List Element) (label : String) : List Element :=
  elements.filter (fun e => e.label == label)

/-- Embeds `_Conf.remove_elements`: the in-place slice assignment
`self.elements[:] = [e for e in self.elements if e.label != label]`. -/
def remove_elements (elements : List Element) (label : String) : List Element :=
  elements.filter (fun e => e.label != label)

/-- Embeds `Statement.__init__` together with `_Element.__init__`: the label
and comment are stored unchanged and `value`/`stanza` are normalised with
Python truthiness (`value if value else ()`, `list(stanza) if stanza else
[]`), under which `None` and the empty tuple both give the empty sequence.
The source contains no validation and no failure path, so the result is
always `ok`. -/
def Statement.init (label : String) (value : Option (List String))
    (stanza : Option (List String)) (comment : Option String) :
    Except String Element :=
  .ok (.stmt label
    (match value with | none => [] | some v => if v = [] then [] else v)
    (match stanza with | none => [] | some s => if s = [] then [] else s)
    comment)

/-- Embeds `pybind.bindconf.Masters.__init__`:
`additional = ('port', port) if port else None`, so with no port argument
(or a falsy port `0`) the clause stores `None` as its additional sequence.
The integer port is later rendered with `'%s'`, embedded as `toString`. -/
def Masters.init (port : Option Int) (comment : Option String) : Element :=
  .clause "masters"
    (match port with
     | none => none
     | some p => if p = 0 then none else some ["port", toString p])
    [] comment

/-- Embeds Python `'%s' %` applied to an optional string: `None` is
stringified as `"None"`. -/
def pyStr : Option String → String
  | none => "None"
  | some s => s

/-- Embeds `Zone.set_type` (identical in `pybind/bindconf.py` and
`bindconf.py`) acting on the zone clause's `elements` list:
`remove_elements('type')` then `add_element(Statement('type', ('%s' %
type_,)))`. -/
def Zone.setType (type_ : Option String) (elements : List Element) :
    List Element :=
  remove_elements elements "type" ++ [.stmt "type" [pyStr type_] [] none]

/-- Embeds `Zone.set_file`: `remove_elements('file')` then
`add_element(Statement('file', ('"%s"' % file_,)))`. -/
def Zone.setFile (file_ : Option String) (elements : List Element) :
    List Element :=
  remove_elements elements "file" ++
    [.stmt "file" ["\"" ++ pyStr file_ ++ "\""] [] none]

/-- Embeds `Zone.__init__` (identical in `pybind/bindconf.py` and
`bindconf.py`): a clause `zone` with additional `('"%s"' % zone_name,
class_)`, whose elements are produced by the unconditional calls
`self.set_type(type_)` then `self.set_file(file_)` on the initially empty
list. -/
def Zone.init (zone_name : String) (type_ file_ : Option String)
    (class_ : String) (comment : Option String) : Element :=
  .clause "zone" (some ["\"" ++ zone_name ++ "\"", class_])
    (Zone.setFile file_ (Zone.setType type_ [])) comment

/-- Extracts the written text from a successful render (used to name the
body of a successful `writeList` inside theorem statements). -/
def okStr : Except String String → String
  | .ok s => s
  | .error _ => ""

/-- A string containing no newline character: a single token of the
configuration format. -/
def nlFree (s : String) : Prop := '\n' ∉ s.data

/-- A string containing no brace character. -/
def braceFree (s : String) : Prop := '\x7b' ∉ s.data ∧ '\x7d' ∉ s.data

instance decNlFree (s : String) : Decidable (nlFree s) :=
  inferInstanceAs (Decidable ('\n' ∉ s.data))

instance decBraceFree (s : String) : Decidable (braceFree s) :=
  inferInstanceAs (Decidable ('\x7b' ∉ s.data ∧ '\x7d' ∉ s.data))

/-- Boolean form of `nlFree`, for the tree well-formedness check. -/
def nlFreeB (s : String) : Bool := !(s.data.contains '\n')

mutual

/-- Well-formed element: every label and token in the tree is newline-free
and every clause has a real (non-`None`) additional sequence, so that
rendering succeeds and emits complete, newline-terminated lines.  Comments
are unconstrained: the source splits them on newlines itself. -/
def Element.wfB : Element → Bool
  | .stmt label value stanza _ =>
    nlFreeB label && value.all nlFreeB && stanza.all nlFreeB
  | .clause label additional elements _ =>
    nlFreeB label && additional.isSome &&
      (additional.getD []).all nlFreeB && Element.wfList elements

/-- Well-formedness of a list of elements. -/
def Element.wfList : List Element → Bool
  | [] => true
  | e :: es => Element.wfB e && Element.wfList es

end

/-- Joins a list of lines into one character stream, each line terminated by
a newline. -/
def joinLines : List (List Char) → List Char
  | [] => []
  | l :: ls => l ++ '\n' :: joinLines ls

/-! Basic lemmas about line splitting and joining. -/

theorem splitNl_append_line (l r : List Char) (h : '\n' ∉ l) :
    splitNl (l ++ '\n' :: r) = l :: splitNl r := by
  induction l with
  | nil => simp [splitNl]
  | cons c cs ih =>
    have hc : c ≠ '\n' := by
      intro hc; exact h (by simp [hc])
    have hcs : '\n' ∉ cs := fun hm => h (by simp [hm])
    have heq := ih hcs
    simp only [List.cons_append, splitNl, if_neg hc, List.append_eq, heq]

theorem splitNl_pieces_nlFree (s : List Char) :
    ∀ p ∈ splitNl s, '\n' ∉ p := by
  induction s with
  | nil =>
    intro p hp
    simp [splitNl] at hp
    simp [hp]
  | cons c cs ih =>
    intro p hp
    by_cases hc : c = '\n'
    · simp [splitNl, hc] at hp
      rcases hp with hp | hp
      · simp [hp]
      · exact ih p hp
    · simp only [splitNl, if_neg hc] at hp
      rcases hsplit : splitNl cs with _ | ⟨l, ls⟩
      · rw [hsplit] at hp
        simp at hp
        subst hp
        simpa using Ne.symm hc
      · rw [hsplit] at hp
        simp at hp
        rcases hp with hp | hp
        · subst hp
          intro hmem
          rcases List.mem_cons.mp hmem with h1 | h1
          · exact hc h1.symm
          · exact ih l (by rw [hsplit]; simp) h1
        · exact ih p (by rw [hsplit]; simp [hp])

theorem joinLines_append (a b : List (List Char)) :
    joinLines (a ++ b) = joinLines a ++ joinLines b := by
  induction a with
  | nil => simp [joinLines]
  | cons l ls ih => simp [joinLines, ih]

theorem splitNl_joinLines (ls : List (List Char)) (r : List Char)
    (h : ∀ l ∈ ls, '\n' ∉ l) :
    splitNl (joinLines ls ++ r) = ls ++ splitNl r := by
  induction ls with
  | nil => simp [joinLines]
  | cons l rest ih =>
    have hl : '\n' ∉ l := h l (by simp)
    have hrest : ∀ x ∈ rest, '\n' ∉ x := fun x hx => h x (by simp [hx])
    simp only [joinLines, List.cons_append, List.append_assoc]
    rw [splitNl_append_line l _ hl, ih hrest]

theorem data_write_indent (n : Nat) :
    (write_indent n).data = List.replicate n '\t' := rfl

theorem valueWrite_data_nlFree (items : List String)
    (h : ∀ t ∈ items, nlFree t) : '\n' ∉ (valueWrite items).data := by
  induction items with
  | nil => simp [valueWrite]
  | cons item rest ih =>
    have hi : '\n' ∉ item.data := h item (by simp)
    have hr := ih (fun t ht => h t (by simp [ht]))
    simp only [valueWrite, String.data_append, List.mem_append]
    intro hmem
    rcases hmem with (h1 | h1) | h1
    · simp at h1
    · exact hi h1
    · exact hr h1

theorem valueWrite_data_count (items : List String) (c : Char)
    (h : ∀ t ∈ items, c ∉ t.data) (hc : c ≠ ' ') :
    List.count c (valueWrite items).data = 0 := by
  induction items with
  | nil => simp [valueWrite]
  | cons item rest ih =>
    have hi : c ∉ item.data := h item (by simp)
    have hr := ih (fun t ht => h t (by simp [ht]))
    simp only [valueWrite, String.data_append, List.count_append, hr]
    rw [List.count_eq_zero.mpr hi]
    have : List.count c ((" " : String).data) = 0 := by
      rw [List.count_eq_zero]
      intro hmem
      simp [show ((" " : String).data) = [' '] from rfl] at hmem
      exact hc hmem
    simp [this]

/-! A mutual structural induction principle for the nested tree. -/

theorem Element.mutual_induction (P : Element → Prop) (Q : List Element → Prop)
    (hstmt : ∀ l v s c, P (.stmt l v s c))
    (hclause : ∀ l a els c, Q els → P (.clause l a els c))
    (hnil : Q [])
    (hcons : ∀ e es, P e → Q es → Q (e :: es)) :
    (∀ e, P e) ∧ (∀ es, Q es) := by
  have key : ∀ n : Nat, (∀ e : Element, sizeOf e = n → P e) ∧
      (∀ es : List Element, sizeOf es = n → Q es) := by
    intro n
    induction n using Nat.strong_induction_on with
    | _ n ih =>
      constructor
      · intro e he
        cases e with
        | stmt l v s c => exact hstmt l v s c
        | clause l a els c =>
          refine hclause l a els c ?_
          have hlt : sizeOf els < n := by
            subst he; simp <;> omega
          exact (ih _ hlt).2 els rfl
      · intro es hes
        cases es with
        | nil => exact hnil
        | cons e rest =>
          refine hcons e rest ?_ ?_
          · have hlt : sizeOf e < n := by
              subst hes; simp <;> omega
            exact (ih _ hlt).1 e rfl
          · have hlt : sizeOf rest < n := by
              subst hes; simp <;> omega
            exact (ih _ hlt).2 rest rfl
  exact ⟨fun e => (key (sizeOf e)).1 e rfl, fun es => (key (sizeOf es)).2 es rfl⟩

theorem nlFreeB_iff (s : String) : nlFreeB s = true ↔ '\n' ∉ s.data := by
  simp [nlFreeB, List.contains]

theorem replicate_tab_nlFree (m : Nat) : '\n' ∉ List.replicate m '\t' := by
  intro h
  have := List.eq_of_mem_replicate h
  simp at this

theorem commentLinesWrite_data (lines : List (List Char)) (m : Nat) :
    (commentLinesWrite lines m).data =
      joinLines (lines.map (fun l => List.replicate m '\t' ++ '#' :: ' ' :: l)) := by
  induction lines with
  | nil => rfl
  | cons l ls ih =>
    have h1 : ("# " : String).data = ['#', ' '] := rfl
    have h2 : ("\n" : String).data = ['\n'] := rfl
    simp only [commentLinesWrite, String.data_append, List.map_cons, joinLines, ih,
      data_write_indent, h1, h2]
    simp [List.append_assoc]

theorem commentWrite_lines (c : Option String) (m : Nat) :
    ∃ ls, (commentWrite c m).data = joinLines ls ∧
      ∀ l ∈ ls, (∃ r, l = List.replicate m '\t' ++ r) ∧ '\n' ∉ l := by
  cases c with
  | none => exact ⟨[], rfl, by simp⟩
  | some s =>
    by_cases hs : s = ""
    · refine ⟨[], ?_, by simp⟩
      simp [commentWrite, hs, joinLines]
    · refine ⟨(splitNl s.data).map (fun l => List.replicate m '\t' ++ '#' :: ' ' :: l),
        ?_, ?_⟩
      · simp only [commentWrite, if_neg hs]
        exact commentLinesWrite_data _ _
      · intro l hl
        simp only [List.mem_map] at hl
        obtain ⟨p, hp, rfl⟩ := hl
        refine ⟨⟨'#' :: ' ' :: p, rfl⟩, ?_⟩
        intro hmem
        rcases List.mem_append.mp hmem with h1 | h1
        · exact replicate_tab_nlFree m h1
        · rcases List.mem_cons.mp h1 with h2 | h2
          · simp at h2
          · rcases List.mem_cons.mp h2 with h3 | h3
            · simp at h3
            · exact splitNl_pieces_nlFree s.data p hp h3

theorem stanzaWrite_data (st : List String) (m : Nat) :
    (stanzaWrite st m).data =
      joinLines (st.map (fun t => List.replicate (m + 1) '\t' ++ t.data ++ [';'])) := by
  induction st with
  | nil => rfl
  | cons t ts ih =>
    have h1 : (";\n" : String).data = [';', '\n'] := rfl
    simp only [stanzaWrite, String.data_append, List.map_cons, joinLines, ih,
      data_write_indent, h1]
    simp [List.append_assoc]

/-- Structure of a successful render: under `wfB`, `write` succeeds and its
output is a sequence of newline-terminated lines, each starting with at
least `indent` tabs and containing no embedded newline. -/
theorem write_lines_all :
    (∀ e : Element, Element.wfB e = true → ∀ m, ∃ s ls,
      Element.write e m = .ok s ∧ s.data = joinLines ls ∧
      ∀ l ∈ ls, (∃ r, l = List.replicate m '\t' ++ r) ∧ '\n' ∉ l) ∧
    (∀ es : List Element, Element.wfList es = true → ∀ m, ∃ s ls,
      Element.writeList es m = .ok s ∧ s.data = joinLines ls ∧
      ∀ l ∈ ls, (∃ r, l = List.replicate m '\t' ++ r) ∧ '\n' ∉ l) := by
  apply Element.mutual_induction
  · intro label value stanza c hwf m
    obtain ⟨cls, hcdata, hcprop⟩ := commentWrite_lines c m
    simp only [Element.wfB, Bool.and_eq_true, List.all_eq_true] at hwf
    obtain ⟨⟨hlab, hval⟩, hsta⟩ := hwf
    rw [nlFreeB_iff] at hlab
    have hvw : '\n' ∉ (valueWrite value).data :=
      valueWrite_data_nlFree value (fun t ht => (nlFreeB_iff t).mp (hval t ht))
    by_cases hse : stanza = []
    · subst hse
      refine ⟨elementWrite label c m ++ valueWrite value ++ ";\n",
        cls ++ [List.replicate m '\t' ++ label.data ++ (valueWrite value).data ++ [';']],
        ?_, ?_, ?_⟩
      · simp [Element.write]
      · have h1 : ((";\n" : String)).data = [';', '\n'] := rfl
        simp only [elementWrite, String.data_append, data_write_indent, hcdata,
          joinLines_append, joinLines, h1]
        simp [List.append_assoc]
      · intro l hl
        rcases List.mem_append.mp hl with h1 | h1
        · exact hcprop l h1
        · simp only [List.mem_singleton] at h1
          subst h1
          refine ⟨⟨label.data ++ (valueWrite value).data ++ [';'],
            by simp [List.append_assoc]⟩, ?_⟩
          intro hmem
          rcases List.mem_append.mp hmem with h2 | h2
          · rcases List.mem_append.mp h2 with h3 | h3
            · rcases List.mem_append.mp h3 with h4 | h4
              · exact replicate_tab_nlFree m h4
              · exact hlab h4
            · exact hvw h3
          · simp at h2
    · refine ⟨elementWrite label c m ++ valueWrite value ++
        (" \x7b\n" ++ stanzaWrite stanza m ++ write_indent m ++ "\x7d;\n"),
        cls ++ [List.replicate m '\t' ++ label.data ++ (valueWrite value).data ++
          [' ', '\x7b']] ++
        stanza.map (fun t => List.replicate (m + 1) '\t' ++ t.data ++ [';']) ++
        [List.replicate m '\t' ++ ['\x7d', ';']],
        ?_, ?_, ?_⟩
      · simp [Element.write, hse]
      · have h1 : ((" \x7b\n" : String)).data = [' ', '\x7b', '\n'] := rfl
        have h2 : (("\x7d;\n" : String)).data = ['\x7d', ';', '\n'] := rfl
        simp only [String.data_append, elementWrite, data_write_indent, hcdata,
          stanzaWrite_data, joinLines_append, joinLines, h1, h2]
        simp [List.append_assoc]
      · intro l hl
        rcases List.mem_append.mp hl with h1 | h1
        · rcases List.mem_append.mp h1 with h2 | h2
          · rcases List.mem_append.mp h2 with h3 | h3
            · exact hcprop l h3
            · simp only [List.mem_singleton] at h3
              subst h3
              refine ⟨⟨label.data ++ (valueWrite value).data ++ [' ', '\x7b'],
                by simp [List.append_assoc]⟩, ?_⟩
              intro hmem
              rcases List.mem_append.mp hmem with h4 | h4
              · rcases List.mem_append.mp h4 with h5 | h5
                · rcases List.mem_append.mp h5 with h6 | h6
                  · exact replicate_tab_nlFree m h6
                  · exact hlab h6
                · exact hvw h5
              · simp at h4
          · simp only [List.mem_map] at h2
            obtain ⟨t, ht, rfl⟩ := h2
            have htn : '\n' ∉ t.data := (nlFreeB_iff t).mp (hsta t ht)
            refine ⟨⟨'\t' :: (t.data ++ [';']), ?_⟩, ?_⟩
            · rw [List.replicate_succ']
              simp [List.append_assoc]
            · intro hmem
              rcases List.mem_append.mp hmem with h4 | h4
              · rcases List.mem_append.mp h4 with h5 | h5
                · exact replicate_tab_nlFree (m + 1) h5
                · exact htn h5
              · simp at h4
        · simp only [List.mem_singleton] at h1
          subst h1
          refine ⟨⟨['\x7d', ';'], rfl⟩, ?_⟩
          intro hmem
          rcases List.mem_append.mp hmem with h4 | h4
          · exact replicate_tab_nlFree m h4
          · simp at h4
  · intro label additional els c ih hwf m
    simp only [Element.wfB, Bool.and_eq_true, List.all_eq_true] at hwf
    obtain ⟨⟨⟨hlab, hsome⟩, haddl⟩, hels⟩ := hwf
    obtain ⟨addl, rfl⟩ := Option.isSome_iff_exists.mp hsome
    rw [nlFreeB_iff] at hlab
    simp only [Option.getD_some] at haddl
    have hvw : '\n' ∉ (valueWrite addl).data :=
      valueWrite_data_nlFree addl (fun t ht => (nlFreeB_iff t).mp (haddl t ht))
    obtain ⟨cls, hcdata, hcprop⟩ := commentWrite_lines c m
    obtain ⟨bs, bls, hbody, hbdata, hbprop⟩ := ih hels (m + 1)
    refine ⟨elementWrite label c m ++ valueWrite addl ++ " \x7b\n" ++ bs ++
        write_indent m ++ "\x7d;\n",
      cls ++ [List.replicate m '\t' ++ label.data ++ (valueWrite addl).data ++
        [' ', '\x7b']] ++ bls ++ [List.replicate m '\t' ++ ['\x7d', ';']],
      ?_, ?_, ?_⟩
    · simp only [Element.write]
      rw [hbody]
      rfl
    · have h1 : ((" \x7b\n" : String)).data = [' ', '\x7b', '\n'] := rfl
      have h2 : (("\x7d;\n" : String)).data = ['\x7d', ';', '\n'] := rfl
      simp only [String.data_append, elementWrite, data_write_indent, hcdata, hbdata,
        joinLines_append, joinLines, h1, h2]
      simp [List.append_assoc]
    · intro l hl
      rcases List.mem_append.mp hl with h1 | h1
      · rcases List.mem_append.mp h1 with h2 | h2
        · rcases List.mem_append.mp h2 with h3 | h3
          · exact hcprop l h3
          · simp only [List.mem_singleton] at h3
            subst h3
            refine ⟨⟨label.data ++ (valueWrite addl).data ++ [' ', '\x7b'],
              by simp [List.append_assoc]⟩, ?_⟩
            intro hmem
            rcases List.mem_append.mp hmem with h4 | h4
            · rcases List.mem_append.mp h4 with h5 | h5
              · rcases List.mem_append.mp h5 with h6 | h6
                · exact replicate_tab_nlFree m h6
                · exact hlab h6
              · exact hvw h5
            · simp at h4
        · obtain ⟨⟨r, hr⟩, hn⟩ := hbprop l h2
          refine ⟨⟨'\t' :: r, ?_⟩, hn⟩
          rw [hr, List.replicate_succ']
          simp [List.append_assoc]
      · simp only [List.mem_singleton] at h1
        subst h1
        refine ⟨⟨['\x7d', ';'], rfl⟩, ?_⟩
        intro hmem
        rcases List.mem_append.mp hmem with h4 | h4
        · exact replicate_tab_nlFree m h4
        · simp at h4
  · intro _ m
    exact ⟨"", [], rfl, rfl, by simp⟩
  · intro e es ihe ihes hwf m
    simp only [Element.wfList, Bool.and_eq_true] at hwf
    obtain ⟨he, hes⟩ := hwf
    obtain ⟨s1, ls1, h1, d1, p1⟩ := ihe he m
    obtain ⟨s2, ls2, h2, d2, p2⟩ := ihes hes m
    refine ⟨s1 ++ s2, ls1 ++ ls2, ?_, ?_, ?_⟩
    · simp only [Element.writeList]
      rw [h1, h2]
      rfl
    · simp [String.data_append, d1, d2, joinLines_append]
    · intro l hl
      rcases List.mem_append.mp hl with hm | hm
      · exact p1 l hm
      · exact p2 l hm

/-- The only error the renderer ever raises is the `TypeError` from
iterating a `None` additional sequence. -/
theorem write_error_all :
    (∀ e : Element, ∀ n msg, Element.write e n = .error msg → msg = noneIterErr) ∧
    (∀ es : List Element, ∀ n msg,
      Element.writeList es n = .error msg → msg = noneIterErr) := by
  apply Element.mutual_induction
  · intro l v s c n msg h
    simp [Element.write] at h
  · intro l a els c ih n msg h
    cases a with
    | none =>
      simp only [Element.write] at h
      exact (Except.error.injEq _ _).mp h.symm
    | some addl =>
      cases hb : Element.writeList els (n + 1) with
      | error m2 =>
        simp only [Element.write, hb] at h
        exact ih (n + 1) msg (hb.trans (by exact_mod_cast h))
      | ok bs =>
        simp only [Element.write, hb] at h
        exact Except.noConfusion h
  · intro n msg h
    simp [Element.writeList] at h
  · intro e es ihe ihes n msg h
    cases he : Element.write e n with
    | error m2 =>
      simp only [Element.writeList, he] at h
      exact ihe n msg (he.trans (by exact_mod_cast h))
    | ok s1 =>
      cases hes2 : Element.writeList es n with
      | error m3 =>
        simp only [Element.writeList, he, hes2] at h
        exact ihes n msg (hes2.trans (by exact_mod_cast h))
      | ok s2 =>
        simp only [Element.writeList, he, hes2] at h
        exact Except.noConfusion h

/-- If any member of a list fails to render, the whole loop fails with the
`TypeError`. -/
theorem writeList_error_of_mem (es : List Element) (x : Element) (hx : x ∈ es)
    (n : Nat) (msg : String) (hg : Element.write x n = .error msg) :
    Element.writeList es n = .error noneIterErr := by
  induction es with
  | nil => simp at hx
  | cons e rest ih =>
    rcases List.mem_cons.mp hx with h1 | h1
    · subst h1
      have : msg = noneIterErr := write_error_all.1 x n msg hg
      subst this
      simp only [Element.writeList, hg]
      rfl
    · cases he : Element.write e n with
      | error m2 =>
        have : m2 = noneIterErr := write_error_all.1 e n m2 he
        subst this
        simp only [Element.writeList, he]
        rfl
      | ok s1 =>
        have hrest := ih h1
        simp only [Element.writeList, he, hrest]
        rfl

/-- The state-threaded renderer agrees with the pure renderer and returns
the tree unchanged. -/
theorem writeM_eq_all :
    (∀ e : Element, ∀ n,
      Element.writeM e n = (Element.write e n).map (fun s => (s, e))) ∧
    (∀ es : List Element, ∀ n,
      Element.writeListM es n = (Element.writeList es n).map (fun s => (s, es))) := by
  apply Element.mutual_induction
  · intro l v s c n
    simp [Element.writeM, Element.write, Except.map]
  · intro l a els c ih n
    cases a with
    | none => simp [Element.writeM, Element.write, Except.map]
    | some addl =>
      cases hb : Element.writeList els (n + 1) with
      | error m2 =>
        have := ih (n + 1)
        rw [hb] at this
        simp only [Element.writeM, Element.write, this, hb, Except.map]
        rfl
      | ok bs =>
        have := ih (n + 1)
        rw [hb] at this
        simp only [Element.writeM, Element.write, this, hb, Except.map]
        rfl
  · intro n
    simp [Element.writeListM, Element.writeList, Except.map]
  · intro e es ihe ihes n
    cases he : Element.write e n with
    | error m2 =>
      have h1 := ihe n
      rw [he] at h1
      simp only [Element.writeListM, Element.writeList, h1, he, Except.map]
      rfl
    | ok s1 =>
      have h1 := ihe n
      rw [he] at h1
      cases hes2 : Element.writeList es n with
      | error m3 =>
        have h2 := ihes n
        rw [hes2] at h2
        simp only [Element.writeListM, Element.writeList, h1, h2, he, hes2, Except.map]
        rfl
      | ok s2 =>
        have h2 := ihes n
        rw [hes2] at h2
        simp only [Element.writeListM, Element.writeList, h1, h2, he, hes2, Except.map]
        rfl

/-- C4: `add_element(e)` raises a type error if and only if `e` is not a
Statement or Clause; on the error path the child sequence is unchanged, on
the success path `e` is appended last; a plain string argument fails with a
type error and leaves the children unchanged. -/
theorem add_element_spec :
    (∀ (els : List Element) (e : Element),
      add_element els (.elem e) = (none, els ++ [e])) ∧
    (∀ (els : List Element) (arg : PyObject), (∀ e, arg ≠ .elem e) →
      add_element els arg = (some "TypeError: element is not an _Element", els)) ∧
    (∀ els : List Element, add_element els (.pystr "not an element") =
      (some "TypeError: element is not an _Element", els)) := by
  refine ⟨fun els e => rfl, ?_, fun els => rfl⟩
  intro els arg h
  cases arg with
  | elem e => exact absurd rfl (h e)
  | pystr s => rfl
  | pyint k => rfl

/-- Witness for C4: adding a plain string to an empty container raises a
type error and leaves the container empty. -/
theorem add_element_spec_witness :
    add_element [] (.pystr "foo") =
      (some "TypeError: element is not an _Element", []) :=
  add_element_spec.2.1 [] (.pystr "foo") (fun e h => by cases h)

/-- C5: `write_file` produces exactly the concatenation of the individual
renders of the top-level elements at indent 0, in insertion order; for a
Configuration holding the single Scenario C clause the file contents equal
that clause's render string. -/
theorem write_file_spec :
    (∀ els : List Element, (∀ e ∈ els, ∃ s, Element.write e 0 = .ok s) →
      write_file els =
        .ok ((els.map (fun e => okStr (Element.write e 0))).foldr (· ++ ·) "")) ∧
    write_file [Element.clause "zone" (some ["\"example.com.\"", "IN"])
        [.stmt "type" ["master"] [] none] none] =
      .ok "zone \"example.com.\" IN \x7b\n\ttype master;\n\x7d;\n" := by
  constructor
  · intro els h
    induction els with
    | nil => rfl
    | cons e rest ih =>
      obtain ⟨s, hs⟩ := h e (by simp)
      have hrest := ih (fun x hx => h x (by simp [hx]))
      simp only [write_file] at hrest ⊢
      simp only [Element.writeList, hs, hrest]
      simp [okStr, hs]
      rfl
  · rfl

/-- Witness for C5: Scenario D for the singleton list. -/
theorem write_file_spec_witness :
    write_file [Element.stmt "type" ["master"] [] none] =
      .ok (([Element.stmt "type" ["master"] [] none].map
        (fun e => okStr (Element.write e 0))).foldr (· ++ ·) "") :=
  write_file_spec.1 [Element.stmt "type" ["master"] [] none]
    (by intro e he; simp at he; subst he; exact ⟨"type master;\n", rfl⟩)

/-- C6: `get_elements` returns, in original order, exactly the direct
children with the given label; `remove_elements` removes exactly those,
preserving the rest's order, and is a no-op when none match;
`remove_elements` then `get_elements` is empty; `add_element` then
`get_elements` has the new element as the last same-label entry. -/
theorem elements_label_ops_spec (els : List Element) (lab : String)
    (x : Element) :
    (get_elements els lab).Sublist els ∧
    (∀ e, e ∈ get_elements els lab ↔ e ∈ els ∧ e.label = lab) ∧
    (remove_elements els lab).Sublist els ∧
    (∀ e, e ∈ remove_elements els lab ↔ e ∈ els ∧ ¬e.label = lab) ∧
    ((∀ e ∈ els, ¬e.label = lab) → remove_elements els lab = els) ∧
    get_elements (remove_elements els lab) lab = [] ∧
    get_elements (add_element els (.elem x)).2 x.label =
      get_elements els x.label ++ [x] := by
  refine ⟨List.filter_sublist els, ?_, List.filter_sublist els, ?_, ?_, ?_, ?_⟩
  · intro e
    simp [get_elements, List.mem_filter]
  · intro e
    simp [remove_elements, List.mem_filter, bne_iff_ne]
  · intro h
    apply List.filter_eq_self.mpr
    intro e he
    simpa [bne_iff_ne] using h e he
  · apply List.filter_eq_nil.mpr
    intro e he
    have := (List.mem_filter.mp he).2
    simp only [bne_iff_ne, ne_eq, decide_not] at this ⊢
    simp_all
  · simp [add_element, get_elements, List.filter_append]

/-- Witness for C6: removing an absent label is a no-op. -/
theorem elements_label_ops_spec_witness :
    remove_elements [Element.stmt "a" [] [] none] "b" =
      [Element.stmt "a" [] [] none] :=
  (elements_label_ops_spec [Element.stmt "a" [] [] none] "b"
      (Element.stmt "a" [] [] none)).2.2.2.2.1
    (by intro e he; simp at he; subst he; decide)

/-- C7: rendering does not mutate the tree: a successful render returns the
tree unchanged, and rendering the unchanged tree again produces the same
output and the same (unchanged) tree. -/
theorem write_no_mutation_spec (e : Element) (n : Nat) (s : String)
    (e2 : Element) (h : Element.writeM e n = .ok (s, e2)) :
    e2 = e ∧ Element.writeM e2 n = .ok (s, e2) := by
  have heq := writeM_eq_all.1 e n
  rw [h] at heq
  cases hw : Element.write e n with
  | error m =>
    rw [hw] at heq
    exact Except.noConfusion heq
  | ok s1 =>
    rw [hw] at heq
    simp only [Except.map, Except.ok.injEq, Prod.mk.injEq] at heq
    obtain ⟨hs, he2⟩ := heq
    subst hs
    subst he2
    refine ⟨rfl, ?_⟩
    rw [writeM_eq_all.1, hw]
    rfl

/-- Witness for C7: a concrete statement renders twice to the same bytes
with its state unchanged. -/
theorem write_no_mutation_spec_witness :
    Element.stmt "type" ["master"] [] none = Element.stmt "type" ["master"] [] none ∧
      Element.writeM (Element.stmt "type" ["master"] [] none) 1 =
        .ok ("\ttype master;\n", Element.stmt "type" ["master"] [] none) :=
  write_no_mutation_spec (Element.stmt "type" ["master"] [] none) 1
    "\ttype master;\n" (Element.stmt "type" ["master"] [] none) rfl

/-- C8 counterexample: constructing a Statement with an empty label
succeeds (the source performs no validation), contradicting the claim that
every construction attempt with an empty label fails. -/
theorem statement_empty_label_succeeds :
    Statement.init "" none none none = .ok (.stmt "" [] [] none) ∧
    (Element.stmt "" [] [] none).label = "" :=
  ⟨rfl, rfl⟩

/-- C8 amended: Statement construction never fails; any label — including
the empty string — is accepted and stored unchanged, and the empty-label
statement still renders (as a bare `;` line). -/
theorem statement_init_spec (label : String) (value stanza : Option (List String))
    (c : Option String) :
    (∃ e, Statement.init label value stanza c = .ok e ∧ e.label = label) ∧
    Element.write (.stmt "" [] [] none) 1 = .ok "\t;\n" :=
  ⟨⟨_, rfl, rfl⟩, rfl⟩

/-- C9: a pybind Masters clause constructed without a port stores `None` as
its additional sequence, and rendering it — directly or via any parent
clause that contains it — raises the `TypeError` from iterating `None`
instead of producing output. -/
theorem masters_none_render_raises (n : Nat) (comment : Option String)
    (lab : String) (addl : List String) (pre post : List Element)
    (c2 : Option String) :
    Masters.init none comment = .clause "masters" none [] comment ∧
    Element.write (Masters.init none comment) n = .error noneIterErr ∧
    Element.write
        (.clause lab (some addl) (pre ++ Masters.init none comment :: post) c2) n =
      .error noneIterErr := by
  refine ⟨rfl, rfl, ?_⟩
  have hmem : Masters.init none comment ∈ pre ++ Masters.init none comment :: post := by
    simp
  have herr : Element.write (Masters.init none comment) (n + 1) = .error noneIterErr := rfl
  have hlist := writeList_error_of_mem _ _ hmem (n + 1) noneIterErr herr
  simp only [Element.write, hlist]
  rfl

/-- C10: a Zone constructed without `type_` or `file_` still holds exactly
one `type` and one `file` child, with the stringified `None` values, and
those children render the lines `type None;` and `file "None";`. -/
theorem zone_default_type_file_spec (zone_name class_ : String)
    (c : Option String) :
    Zone.init zone_name none none class_ c =
      .clause "zone" (some ["\"" ++ zone_name ++ "\"", class_])
        [.stmt "type" ["None"] [] none, .stmt "file" ["\"None\""] [] none] c ∧
    get_elements
        [.stmt "type" ["None"] [] none, .stmt "file" ["\"None\""] [] none]
        "type" = [.stmt "type" ["None"] [] none] ∧
    get_elements
        [.stmt "type" ["None"] [] none, .stmt "file" ["\"None\""] [] none]
        "file" = [.stmt "file" ["\"None\""] [] none] ∧
    Element.write (.stmt "type" ["None"] [] none) 1 = .ok "\ttype None;\n" ∧
    Element.write (.stmt "file" ["\"None\""] [] none) 1 = .ok "\tfile \"None\";\n" := by
  refine ⟨rfl, rfl, rfl, rfl, rfl⟩

theorem stanzaWrite_data_count (st : List String) (m : Nat) (c : Char)
    (h : ∀ t ∈ st, c ∉ t.data) (h1 : c ≠ '\t') (h2 : c ≠ ';') (h3 : c ≠ '\n') :
    List.count c (stanzaWrite st m).data = 0 := by
  induction st with
  | nil => simp [stanzaWrite]
  | cons t ts ih =>
    have hrec := ih (fun x hx => h x (by simp [hx]))
    have hn : ((";\n" : String)).data = [';', '\n'] := rfl
    have hrepl : List.count c (List.replicate (m + 1) '\t') = 0 := by
      simp [List.count_replicate, Ne.symm h1]
    simp [stanzaWrite, String.data_append, List.count_append, List.count_cons,
      data_write_indent, hn, hrec, hrepl, Ne.symm h2, Ne.symm h3,
      List.count_eq_zero.mpr (h t (by simp))]

/-- C2: a Statement with empty stanza renders as comment lines, then
`indent` tabs, the label, each value token preceded by one space, then `;`
and one newline — with no brace characters after the comment lines.
Scenario A is the concrete instance. -/
theorem stmt_write_no_stanza_spec (label : String) (value : List String)
    (c : Option String) (n : Nat) :
    Element.write (.stmt label value [] c) n =
      .ok (commentWrite c n ++
        (write_indent n ++ label ++ valueWrite value ++ ";\n")) ∧
    (braceFree label → (∀ t ∈ value, braceFree t) →
      List.count '\x7b'
        (write_indent n ++ label ++ valueWrite value ++ ";\n").data = 0 ∧
      List.count '\x7d'
        (write_indent n ++ label ++ valueWrite value ++ ";\n").data = 0) ∧
    Element.write (.stmt "type" ["master"] [] none) 1 = .ok "\ttype master;\n" := by
  refine ⟨?_, ?_, rfl⟩
  · simp [Element.write, elementWrite, String.append_assoc]
  · intro hb hv
    have hn : ((";\n" : String)).data = [';', '\n'] := rfl
    have h1 : List.count '\x7b' label.data = 0 := List.count_eq_zero.mpr hb.1
    have h2 : List.count '\x7d' label.data = 0 := List.count_eq_zero.mpr hb.2
    have h3 : List.count '\x7b' (valueWrite value).data = 0 :=
      valueWrite_data_count value '\x7b' (fun t ht => (hv t ht).1) (by decide)
    have h4 : List.count '\x7d' (valueWrite value).data = 0 :=
      valueWrite_data_count value '\x7d' (fun t ht => (hv t ht).2) (by decide)
    constructor <;>
      simp [String.data_append, data_write_indent, List.count_append,
        List.count_replicate, hn, h1, h2, h3, h4]

/-- Witness for C2: the Scenario A statement has no braces in its rendered
line. -/
theorem stmt_write_no_stanza_spec_witness :
    List.count '\x7b'
      (write_indent 1 ++ "type" ++ valueWrite ["master"] ++ ";\n").data = 0 ∧
    List.count '\x7d'
      (write_indent 1 ++ "type" ++ valueWrite ["master"] ++ ";\n").data = 0 :=
  (stmt_write_no_stanza_spec "type" ["master"] none 1).2.1 (by decide)
    (by intro t ht; simp at ht; subst ht; decide)

/-- C1: a Statement with non-empty stanza renders as comment lines, then
`indent` tabs, the label, each value token preceded by one space, then a
space and an opening brace and a newline; then each stanza token on its own
line at `indent + 1` tabs terminated by a semicolon; then `indent` tabs and
the closing brace-semicolon line.  For brace-free tokens the non-comment
output holds exactly one opening and one closing brace, and its interior
lines are exactly the semicolon-terminated stanza lines, one per stanza
item.  Scenario B is the concrete instance. -/
theorem stmt_write_stanza_spec (label : String) (value : List String)
    (s0 : String) (ss : List String) (c : Option String) (n : Nat) :
    Element.write (.stmt label value (s0 :: ss) c) n =
      .ok (commentWrite c n ++
        (write_indent n ++ label ++ valueWrite value ++ " \x7b\n" ++
          stanzaWrite (s0 :: ss) n ++ write_indent n ++ "\x7d;\n")) ∧
    (braceFree label → (∀ t ∈ value, braceFree t) →
      (∀ t ∈ s0 :: ss, braceFree t) →
      List.count '\x7b' (write_indent n ++ label ++ valueWrite value ++ " \x7b\n" ++
        stanzaWrite (s0 :: ss) n ++ write_indent n ++ "\x7d;\n").data = 1 ∧
      List.count '\x7d' (write_indent n ++ label ++ valueWrite value ++ " \x7b\n" ++
        stanzaWrite (s0 :: ss) n ++ write_indent n ++ "\x7d;\n").data = 1) ∧
    (nlFree label → (∀ t ∈ value, nlFree t) → (∀ t ∈ s0 :: ss, nlFree t) →
      splitNl (write_indent n ++ label ++ valueWrite value ++ " \x7b\n" ++
          stanzaWrite (s0 :: ss) n ++ write_indent n ++ "\x7d;\n").data =
        (List.replicate n '\t' ++ label.data ++ (valueWrite value).data ++
            [' ', '\x7b']) ::
          ((s0 :: ss).map
            (fun t => List.replicate (n + 1) '\t' ++ t.data ++ [';']) ++
            [List.replicate n '\t' ++ ['\x7d', ';'], []]) ∧
      ((s0 :: ss).map
        (fun t => List.replicate (n + 1) '\t' ++ t.data ++ [';'])).length =
        (s0 :: ss).length ∧
      (∀ l ∈ (s0 :: ss).map
          (fun t => List.replicate (n + 1) '\t' ++ t.data ++ [';']),
        l.getLast? = some ';')) ∧
    Element.write (.stmt "allow-update" [] ["none"] none) 1 =
      .ok "\tallow-update \x7b\n\t\tnone;\n\t\x7d;\n" := by
  refine ⟨?_, ?_, ?_, rfl⟩
  · simp [Element.write, elementWrite, String.append_assoc]
  · intro hb hv hst
    have ho : ((" \x7b\n" : String)).data = [' ', '\x7b', '\n'] := rfl
    have hc2 : (("\x7d;\n" : String)).data = ['\x7d', ';', '\n'] := rfl
    have h1 : List.count '\x7b' label.data = 0 := List.count_eq_zero.mpr hb.1
    have h2 : List.count '\x7d' label.data = 0 := List.count_eq_zero.mpr hb.2
    have h3 : List.count '\x7b' (valueWrite value).data = 0 :=
      valueWrite_data_count value '\x7b' (fun t ht => (hv t ht).1) (by decide)
    have h4 : List.count '\x7d' (valueWrite value).data = 0 :=
      valueWrite_data_count value '\x7d' (fun t ht => (hv t ht).2) (by decide)
    have h5 : List.count '\x7b' (stanzaWrite (s0 :: ss) n).data = 0 :=
      stanzaWrite_data_count (s0 :: ss) n '\x7b' (fun t ht => (hst t ht).1)
        (by decide) (by decide) (by decide)
    have h6 : List.count '\x7d' (stanzaWrite (s0 :: ss) n).data = 0 :=
      stanzaWrite_data_count (s0 :: ss) n '\x7d' (fun t ht => (hst t ht).2)
        (by decide) (by decide) (by decide)
    constructor <;>
      simp [String.data_append, data_write_indent, List.count_append,
        List.count_replicate, List.count_cons, ho, hc2, h1, h2, h3, h4, h5, h6]
  · intro hl hv hst
    have hvw := valueWrite_data_nlFree value hv
    have ho : ((" \x7b\n" : String)).data = [' ', '\x7b', '\n'] := rfl
    have hc2 : (("\x7d;\n" : String)).data = ['\x7d', ';', '\n'] := rfl
    have hd : (write_indent n ++ label ++ valueWrite value ++ " \x7b\n" ++
        stanzaWrite (s0 :: ss) n ++ write_indent n ++ "\x7d;\n").data =
        joinLines ((List.replicate n '\t' ++ label.data ++ (valueWrite value).data ++
            [' ', '\x7b']) ::
          ((s0 :: ss).map
            (fun t => List.replicate (n + 1) '\t' ++ t.data ++ [';']) ++
            [List.replicate n '\t' ++ ['\x7d', ';']])) := by
      simp only [String.data_append, data_write_indent, stanzaWrite_data,
        joinLines, joinLines_append, ho, hc2]
      simp [joinLines_append, joinLines, List.append_assoc]
    have hlines : ∀ l ∈ (List.replicate n '\t' ++ label.data ++
          (valueWrite value).data ++ [' ', '\x7b']) ::
        ((s0 :: ss).map
          (fun t => List.replicate (n + 1) '\t' ++ t.data ++ [';']) ++
          [List.replicate n '\t' ++ ['\x7d', ';']]), '\n' ∉ l := by
      intro l hml
      rcases List.mem_cons.mp hml with h1 | h1
      · subst h1
        intro hmem
        rcases List.mem_append.mp hmem with h2 | h2
        · rcases List.mem_append.mp h2 with h3 | h3
          · rcases List.mem_append.mp h3 with h4 | h4
            · exact replicate_tab_nlFree n h4
            · exact hl h4
          · exact hvw h3
        · simp at h2
      · rcases List.mem_append.mp h1 with h2 | h2
        · simp only [List.mem_map] at h2
          obtain ⟨t, ht, rfl⟩ := h2
          intro hmem
          rcases List.mem_append.mp hmem with h4 | h4
          · rcases List.mem_append.mp h4 with h5 | h5
            · exact replicate_tab_nlFree (n + 1) h5
            · exact hst t ht h5
          · simp at h4
        · simp only [List.mem_singleton] at h2
          subst h2
          intro hmem
          rcases List.mem_append.mp hmem with h4 | h4
          · exact replicate_tab_nlFree n h4
          · simp at h4
    have hsplit := splitNl_joinLines _ [] hlines
    rw [List.append_nil] at hsplit
    rw [hd, hsplit]
    refine ⟨by simp [splitNl], by simp, ?_⟩
    intro l hml
    simp only [List.mem_map] at hml
    obtain ⟨t, _, rfl⟩ := hml
    simp [← List.append_assoc]

/-- Witness for C1: the Scenario B statement has exactly one opening and
one closing brace in its non-comment output. -/
theorem stmt_write_stanza_spec_witness :
    List.count '\x7b' (write_indent 1 ++ "allow-update" ++ valueWrite [] ++
      " \x7b\n" ++ stanzaWrite ["none"] 1 ++ write_indent 1 ++ "\x7d;\n").data = 1 ∧
    List.count '\x7d' (write_indent 1 ++ "allow-update" ++ valueWrite [] ++
      " \x7b\n" ++ stanzaWrite ["none"] 1 ++ write_indent 1 ++ "\x7d;\n").data = 1 :=
  (stmt_write_stanza_spec "allow-update" [] "none" [] none 1).2.1 (by decide)
    (by intro t ht; simp at ht) (by intro t ht; simp at ht; subst ht; decide)

/-- C3: a Clause renders as comment lines, then `indent` tabs, the label,
each additional token preceded by one space, then a space, an opening brace
and a newline; then each child element rendered in order at `indent + 1`;
then `indent` tabs and the closing brace-semicolon line.  The non-comment
output contains exactly one closing line at the clause's own indent.
Scenario C is the concrete instance. -/
theorem clause_write_spec (label : String) (addl : List String)
    (els : List Element) (c : Option String) (n : Nat)
    (hwf : Element.wfList els = true) (hlab : nlFree label)
    (haddl : ∀ t ∈ addl, nlFree t) :
    ∃ body, Element.writeList els (n + 1) = .ok body ∧
      Element.write (.clause label (some addl) els c) n =
        .ok (commentWrite c n ++
          (write_indent n ++ label ++ valueWrite addl ++ " \x7b\n" ++
            body ++ write_indent n ++ "\x7d;\n")) ∧
      List.count (List.replicate n '\t' ++ ['\x7d', ';'])
        (splitNl (write_indent n ++ label ++ valueWrite addl ++ " \x7b\n" ++
          body ++ write_indent n ++ "\x7d;\n").data) = 1 ∧
      Element.write (.clause "zone" (some ["\"example.com.\"", "IN"])
          [.stmt "type" ["master"] [] none] none) 0 =
        .ok "zone \"example.com.\" IN \x7b\n\ttype master;\n\x7d;\n" := by
  obtain ⟨bs, bls, hbody, hbdata, hbprop⟩ := write_lines_all.2 els hwf (n + 1)
  have hvw := valueWrite_data_nlFree addl haddl
  refine ⟨bs, hbody, ?_, ?_, rfl⟩
  · have hw : Element.write (.clause label (some addl) els c) n =
        .ok (elementWrite label c n ++ valueWrite addl ++ " \x7b\n" ++ bs ++
          write_indent n ++ "\x7d;\n") := by
      simp only [Element.write]
      rw [hbody]
      rfl
    rw [hw]
    simp [elementWrite, String.append_assoc]
  · have ho : ((" \x7b\n" : String)).data = [' ', '\x7b', '\n'] := rfl
    have hc2 : (("\x7d;\n" : String)).data = ['\x7d', ';', '\n'] := rfl
    have hd : (write_indent n ++ label ++ valueWrite addl ++ " \x7b\n" ++ bs ++
        write_indent n ++ "\x7d;\n").data =
        joinLines ((List.replicate n '\t' ++ label.data ++
            (valueWrite addl).data ++ [' ', '\x7b']) ::
          (bls ++ [List.replicate n '\t' ++ ['\x7d', ';']])) := by
      simp only [String.data_append, data_write_indent, hbdata, joinLines,
        joinLines_append, ho, hc2]
      simp [joinLines_append, joinLines, List.append_assoc]
    have hlines : ∀ l ∈ (List.replicate n '\t' ++ label.data ++
          (valueWrite addl).data ++ [' ', '\x7b']) ::
        (bls ++ [List.replicate n '\t' ++ ['\x7d', ';']]), '\n' ∉ l := by
      intro l hml
      rcases List.mem_cons.mp hml with h1 | h1
      · subst h1
        intro hmem
        rcases List.mem_append.mp hmem with h2 | h2
        · rcases List.mem_append.mp h2 with h3 | h3
          · rcases List.mem_append.mp h3 with h4 | h4
            · exact replicate_tab_nlFree n h4
            · exact hlab h4
          · exact hvw h3
        · simp at h2
      · rcases List.mem_append.mp h1 with h2 | h2
        · exact (hbprop l h2).2
        · simp only [List.mem_singleton] at h2
          subst h2
          intro hmem
          rcases List.mem_append.mp hmem with h4 | h4
          · exact replicate_tab_nlFree n h4
          · simp at h4
    have hsplit := splitNl_joinLines _ [] hlines
    rw [List.append_nil] at hsplit
    rw [hd, hsplit]
    have hopen_ne : List.replicate n '\t' ++ label.data ++
        (valueWrite addl).data ++ [' ', '\x7b'] ≠
        List.replicate n '\t' ++ ['\x7d', ';'] := by
      intro h
      have h2 : List.replicate n '\t' ++
          (label.data ++ ((valueWrite addl).data ++ [' ', '\x7b'])) =
          List.replicate n '\t' ++ ['\x7d', ';'] := by
        simpa [List.append_assoc] using h
      have h3 := List.append_cancel_left h2
      have h4 := congrArg List.reverse h3
      simp [List.reverse_append] at h4
    have hbls_ne : ∀ l ∈ bls, l ≠ List.replicate n '\t' ++ ['\x7d', ';'] := by
      intro l hml h
      obtain ⟨⟨r, hr⟩, _⟩ := hbprop l hml
      rw [hr, List.replicate_succ'] at h
      have h2 : List.replicate n '\t' ++ ('\t' :: r) =
          List.replicate n '\t' ++ ['\x7d', ';'] := by
        simpa [List.append_assoc] using h
      have h3 := List.append_cancel_left h2
      simp at h3
    have hnil_ne : ([] : List Char) ≠ List.replicate n '\t' ++ ['\x7d', ';'] := by
      intro h
      have := congrArg List.length h
      simp at this
    have hcnt_bls : List.count (List.replicate n '\t' ++ ['\x7d', ';']) bls = 0 :=
      List.count_eq_zero.mpr (fun hmem => hbls_ne _ hmem rfl)
    have hopen_ne2 : ¬(label.data ++ ((valueWrite addl).data ++ [' ', '\x7b']) =
        ['\x7d', ';']) := by
      intro h3
      have h4 := congrArg List.reverse h3
      simp [List.reverse_append] at h4
    simp [splitNl, List.count_append, List.count_cons, hcnt_bls, hopen_ne,
      hopen_ne2, Ne.symm hnil_ne]

/-- Witness for C3: the Scenario C clause applied through the theorem. -/
theorem clause_write_spec_witness :
    Element.write (.clause "zone" (some ["\"example.com.\"", "IN"])
        [.stmt "type" ["master"] [] none] none) 0 =
      .ok "zone \"example.com.\" IN \x7b\n\ttype master;\n\x7d;\n" := by
  obtain ⟨body, h1, h2, h3, h4⟩ :=
    clause_write_spec "zone" ["\"example.com.\"", "IN"]
      [.stmt "type" ["master"] [] none] none 0 (by decide) (by decide)
      (by intro t ht; simp at ht; rcases ht with h | h <;> (subst h; decide))
  exact h4

end PyBind
